import Mathlib

/-!
Verification development for the Audio-Transcription backend
(src/backend/src/index.js).  The repository file contains two revisions of
the backend, separated by a document marker: a legacy revision (whose close
handler performs a direct-exec fallback when no transcript artifact is
found) and the current revision (queue with MAX_CONCURRENT_JOBS, model and
language selection, YouTube ingestion).  The current revision is embedded
as the program; the legacy close handler is embedded separately as
legacyCloseHandler.

The filesystem is modelled as a function from paths to optional file
contents, JSON.parse of the segments artifact as an opaque parameter
(it is a platform builtin, external to the repository), and the node
event loop as a small-step transition system: every asynchronous callback
of the source (subprocess stdout, stderr, close and error events, the
YouTube download progress, completion and failure events) is one step.
-/

namespace WhisperApp

/-- File contents by absolute path; `none` means the path does not exist.
Mirrors fs.existsSync / fs.readFileSync. -/
abbrev FS := String → Option String

/-- Segment objects of the transcript .json artifact are passed through by
the backend without inspection (jsonData.segments), so they are modelled
opaquely by their serialized text. -/
abbrev Segment := String

/-- Result of JSON.parse on the .json artifact: `none` models a parse throw,
`some none` a parsed object without a segments array (jsonData.segments
falsy), `some (some l)` a parsed object with segments `l`. -/
abbrev JsonSegParse := String → Option (Option (List Segment))

/-! ## Constants of src/backend/src/index.js (current revision) -/

def UPLOAD_DIR : String := "/var/www/whisper-app/backend/uploads"

def MAX_CONCURRENT_JOBS : Nat := 1

structure WhisperModel where
  id : String
  name : String
  description : String
deriving DecidableEq, Repr

def AVAILABLE_MODELS : List WhisperModel :=
  [ ⟨"tiny", "Tiny", "Fastest, least accurate"⟩,
    ⟨"base", "Base", "Fast, reasonable accuracy"⟩,
    ⟨"small", "Small", "Good balance of speed and accuracy"⟩,
    ⟨"medium", "Medium", "High accuracy, slower"⟩,
    ⟨"large", "Large", "Highest accuracy, slowest"⟩ ]

structure LanguageOpt where
  code : String
  name : String
deriving DecidableEq, Repr

/-- The language list returned by GET /api/languages. -/
def API_LANGUAGES : List LanguageOpt :=
  [ ⟨"auto", "Auto-detect"⟩, ⟨"en", "English"⟩, ⟨"fr", "French"⟩,
    ⟨"de", "German"⟩, ⟨"es", "Spanish"⟩, ⟨"it", "Italian"⟩,
    ⟨"pt", "Portuguese"⟩, ⟨"nl", "Dutch"⟩, ⟨"ru", "Russian"⟩,
    ⟨"zh", "Chinese"⟩, ⟨"ar", "Arabic"⟩, ⟨"ja", "Japanese"⟩,
    ⟨"ko", "Korean"⟩, ⟨"hi", "Hindi"⟩, ⟨"yo", "Yoruba"⟩,
    ⟨"ha", "Hausa"⟩, ⟨"ig", "Igbo"⟩ ]

/-! ## String helpers: JS truthiness and node path functions -/

/-- JS `s || d` for strings: the empty string is falsy. -/
def jsOr (s d : String) : String := if s = "" then d else s

/-- JS `x || d` where `x` may be undefined (form field absent) and the empty
string is falsy. -/
def jsOrOpt (x : Option String) (d : String) : String :=
  match x with
  | some s => jsOr s d
  | none => d

/-- Split a character list at a separator (used for path components). -/
def splitOnCharAux (sep : Char) : List Char → List Char → List (List Char)
  | [], acc => [acc.reverse]
  | c :: rest, acc =>
    if c = sep then acc.reverse :: splitOnCharAux sep rest []
    else splitOnCharAux sep rest (c :: acc)

/-- node path.basename: the component after the last slash. -/
def basename (p : String) : String :=
  String.mk (((splitOnCharAux '/' p.toList []).getLast?).getD p.toList)

/-- Index of the last dot of a character list (accumulator form). -/
def lastDotPosAux : List Char → Nat → Option Nat → Option Nat
  | [], _, acc => acc
  | c :: rest, i, acc => lastDotPosAux rest (i + 1) (if c = '.' then some i else acc)

/-- node path.extname: the suffix of the basename from its last dot; empty
when there is no dot or the dot is the leading character. -/
def extname (p : String) : String :=
  let b := basename p
  match lastDotPosAux b.toList 0 none with
  | none => ""
  | some 0 => ""
  | some i => String.mk (b.toList.drop i)

/-- node path.basename(p, path.extname(p)): the basename with its extension
stripped.  This is the naming convention locating transcript artifacts. -/
def basenameNoExt (p : String) : String :=
  let b := (basename p).toList
  let e := (extname p).toList
  if 0 < e.length ∧ e.length < b.length ∧ b.drop (b.length - e.length) = e
  then String.mk (b.take (b.length - e.length)) else String.mk b

/-- Expected transcript artifact for an input file
(path.join(UPLOAD_DIR, baseName + ".txt")). -/
def txtPathOf (inputPath : String) : String :=
  UPLOAD_DIR ++ "/" ++ basenameNoExt inputPath ++ ".txt"

/-- Expected segments artifact for an input file. -/
def jsonPathOf (inputPath : String) : String :=
  UPLOAD_DIR ++ "/" ++ basenameNoExt inputPath ++ ".json"

/-- Single left-to-right scan for the regex (\d+)%: the accumulator holds
the value of the digit run currently being read, if any. -/
def firstPercentGo : Option Nat → List Char → Option Nat
  | _, [] => none
  | some n, c :: rest =>
    if c.isDigit then firstPercentGo (some (n * 10 + (c.toNat - '0'.toNat))) rest
    else if c = '%' then some n
    else firstPercentGo none rest
  | none, c :: rest =>
    if c.isDigit then firstPercentGo (some (c.toNat - '0'.toNat)) rest
    else firstPercentGo none rest

/-- First match of the regex (\d+)% on a chunk of stdout: the leftmost
maximal digit run that is immediately followed by a percent sign. -/
def firstPercent (chunk : String) : Option Nat := firstPercentGo none chunk.toList

/-! ## Job records (values of the transcriptions Map) -/

/-- The status strings written into the registry by the backend. -/
inductive Status where
  | started
  | processing
  | completed
  | error
deriving DecidableEq, Repr

/-- videoDetails returned by getYoutubeVideoDetails. -/
structure VideoDetails where
  title : String
  duration : Nat
  author : String
  thumbnailUrl : String
deriving DecidableEq, Repr

/-- One value of the transcriptions Map.  Each call of transcriptions.set
in the source stores a fresh object literal, so every write below replaces
the whole record; fields a given literal does not mention are `none`. -/
structure JobRec where
  status : Status
  transcription : Option String := none
  segments : Option (List Segment) := none
  error : Option String := none
  details : Option String := none
  progress : Option Nat := none
  filename : Option String := none
  filesize : Option Nat := none
  model : Option String := none
  language : Option String := none
  startedAt : Option Nat := none
  completedAt : Option Nat := none
  inputFile : Option String := none
  outputTxt : Option String := none
  outputJson : Option String := none
  videoId : Option String := none
  videoDetails : Option VideoDetails := none
  sourceType : Option String := none
deriving DecidableEq, Repr

/-! ## External Transcriber Adapter: model validation and engine command -/

/-- AVAILABLE_MODELS.find(m => m.id === model) ? model : "medium". -/
def validModelOf (model : String) : String :=
  if AVAILABLE_MODELS.any (fun m => m.id = model) then model else "medium"

/-- The engine command and argument list built by transcribeAudio
(lines 369-411 of the current revision): faster-whisper when the
USE_FASTER_WHISPER flag is set, original whisper otherwise; the language
flag is appended exactly when the language is truthy and not "auto". -/
def buildWhisperCmd (useFasterWhisper : Bool) (whisperThreadsEnv : Option String)
    (model language absolutePath : String) : String × List String :=
  let validModel := validModelOf model
  if useFasterWhisper then
    let args := ["--model", validModel, "--output_dir", UPLOAD_DIR,
                 "--output_format", "all",
                 "--threads", whisperThreadsEnv.getD "4",
                 "--beam_size", "5", "--best_of", "5", "--temperature", "0"]
    let args := if language ≠ "" ∧ language ≠ "auto"
                then args ++ ["--language", language] else args
    ("faster-whisper", args ++ [absolutePath])
  else
    let args := [absolutePath, "--model", validModel, "--output_dir", UPLOAD_DIR,
                 "--device", "cpu",
                 "--threads", whisperThreadsEnv.getD "2"]
    let args := if language ≠ "" ∧ language ≠ "auto"
                then args ++ ["--language", language] else args
    ("whisper", args)

/-! ## External Transcriber Adapter: subprocess close handlers -/

/-- Outcome of a close handler: the registry record it stores, whether the
promise resolves (`ok`) or rejects, and how many direct-exec fallback
invocations of the engine it performed. -/
structure CloseResult where
  entry : JobRec
  ok : Bool
  fallbacks : Nat
deriving DecidableEq, Repr

/-- The close handler of the current revision (lines 447-497): regardless
of the exit code, look for the .txt artifact; if present, read it, parse
the optional .json sibling for segments (a parse throw is caught and
leaves the segments empty) and store a completed record; if absent, store
an error record with the captured stderr and reject.  No fallback
invocation is performed. -/
def closeHandler (fs : FS) (parse : JsonSegParse)
    (inputPath validModel language errorOutput : String) (now : Nat)
    (code : Option Int) : CloseResult :=
  let txtFile := txtPathOf inputPath
  let jsonFile := jsonPathOf inputPath
  match fs txtFile with
  | some transcription =>
    let segments : List Segment :=
      match fs jsonFile with
      | some raw =>
        match parse raw with
        | some segs? => segs?.getD []
        | none => []
      | none => []
    { entry := { status := .completed
                 transcription := some transcription
                 segments := some segments
                 model := some validModel
                 language := some (jsOr language "auto")
                 inputFile := some (basename inputPath)
                 outputTxt := some (basename txtFile)
                 outputJson := if (fs jsonFile).isSome then some (basename jsonFile) else none
                 completedAt := some now }
      ok := true
      fallbacks := 0 }
  | none =>
    { entry := { status := .error
                 error := some "Failed to generate transcription output"
                 details := some (jsOr errorOutput "Unknown error during transcription process") }
      ok := false
      fallbacks := 0 }

/-- The close handler of the legacy revision (lines 118-165): look for the
.txt artifact; if absent, re-invoke the engine once through exec (a direct
shell-style execution) and re-check.  `execErr` is the error argument of
the exec callback and `fsAfterExec` the filesystem once exec finished. -/
def legacyCloseHandler (fs : FS) (inputPath : String) (code : Option Int)
    (execErr : Option String) (fsAfterExec : FS) : CloseResult :=
  let txtFile := txtPathOf inputPath
  match fs txtFile with
  | some transcription =>
    { entry := { status := .completed, transcription := some transcription }
      ok := true, fallbacks := 0 }
  | none =>
    match execErr with
    | some msg =>
      { entry := { status := .error
                   error := some "Failed to transcribe audio"
                   details := some msg }
        ok := false, fallbacks := 1 }
    | none =>
      match fsAfterExec txtFile with
      | some transcription =>
        { entry := { status := .completed, transcription := some transcription }
          ok := true, fallbacks := 1 }
      | none =>
        { entry := { status := .error
                     error := some "Transcription file not found after direct command" }
          ok := false, fallbacks := 1 }

/-! ## The orchestration state: registry, queue, dispatch flags -/

/-- One entry of transcriptionQueue. -/
structure QItem where
  filePath : String
  jobId : String
  model : String
  language : String
deriving DecidableEq, Repr

/-- One in-flight engine subprocess: the closure state of transcribeAudio
between spawn and the close event (output and errorOutput are its
accumulating stdout and stderr buffers). -/
structure RunJob where
  jobId : String
  inputPath : String
  validModel : String
  language : String
  output : String
  errorOutput : String
deriving DecidableEq, Repr

/-- One in-flight YouTube download (between the downloadYoutubeAudio call
and its end or error event). -/
structure DlJob where
  jobId : String
  videoId : String
  model : String
  language : String
  outputPath : String
deriving DecidableEq, Repr

/-- The transcriptions Map, modelled by its lookup function. -/
abbrev Reg := String → Option JobRec

/-- transcriptions.set: JS Map assignment. -/
def setReg (reg : Reg) (k : String) (v : JobRec) : Reg :=
  fun id => if id = k then some v else reg id

/-- The mutable module state of the backend plus the in-flight async
callbacks, with the millisecond clock `now` feeding Date.now(). -/
structure Sys where
  reg : Reg
  queue : List QItem
  isProcessing : Bool
  activeJobs : Nat
  running : List RunJob
  downloads : List DlJob
  now : Nat

/-- Server start: empty registry and queue, no dispatch cycle active. -/
def initSys : Sys :=
  { reg := fun _ => none, queue := [], isProcessing := false,
    activeJobs := 0, running := [], downloads := [], now := 0 }

/-- Date.now().toString(), the job id allocator. -/
def jobIdOf (now : Nat) : String := toString now

/-! ## Registry records written by the individual handlers -/

/-- Record stored by the upload handler on submission. -/
def uploadStartedRec (origName : String) (size : Nat) (model language : String)
    (now : Nat) : JobRec :=
  { status := .started, filename := some origName, filesize := some size,
    model := some model, language := some language, startedAt := some now }

/-- Record stored by transcribeAudio when the input path is missing. -/
def inputNotFoundRec (inputPath : String) : JobRec :=
  { status := .error, error := some ("Input file not found: " ++ inputPath) }

/-- Record stored by the stdout data handler of the engine subprocess. -/
def stdoutProcessingRec (chunk accumulated : String) : JobRec :=
  match firstPercent chunk with
  | some p => { status := .processing, progress := some p, details := some accumulated }
  | none => { status := .processing, details := some accumulated }

/-- Record stored by the catch block of processQueue when transcribeAudio
rejects; its details field carries the message of the thrown error. -/
def queueCatchRec (message : String) : JobRec :=
  { status := .error, error := some "Failed to process file in queue",
    details := some message }

/-- Record stored by the YouTube handler on submission. -/
def ytStartedRec (vd : VideoDetails) (videoId model language : String)
    (now : Nat) : JobRec :=
  { status := .started, filename := some ("YouTube: " ++ vd.title),
    videoId := some videoId, videoDetails := some vd,
    model := some model, language := some language,
    startedAt := some now, sourceType := some "youtube" }

/-- Record stored synchronously by downloadYoutubeAudio before streaming. -/
def ytDownloadRec : JobRec :=
  { status := .processing, progress := some 0,
    details := some "Downloading audio from YouTube..." }

/-- Record stored by the download or conversion progress callbacks. -/
def ytProgressRec (pct : Nat) (converting : Bool) : JobRec :=
  { status := .processing, progress := some pct,
    details := some ((if converting then "Converting video to audio... "
                      else "Downloading audio from YouTube... ")
                     ++ toString pct ++ "%") }

/-- Record stored by the catch block around downloadYoutubeAudio. -/
def ytFailRec (message : String) : JobRec :=
  { status := .error, error := some "Failed to process YouTube video",
    details := some message }

/-! ## Request handlers (synchronous portions of the route callbacks) -/

/-- POST /api/transcribe (lines 623-669): allocate the id from the clock,
store a started record, append a dispatch record to the queue and answer
with the id.  The multer filename convention places the upload at
UPLOAD_DIR/Date.now()-originalname. -/
def uploadHandler (s : Sys) (origName : String) (size : Nat)
    (model? language? : Option String) : Sys × String :=
  let jobId := jobIdOf s.now
  let model := jsOrOpt model? "medium"
  let language := jsOrOpt language? "en"
  let filePath := UPLOAD_DIR ++ "/" ++ toString s.now ++ "-" ++ origName
  ({ s with reg := setReg s.reg jobId (uploadStartedRec origName size model language s.now),
            queue := s.queue ++ [⟨filePath, jobId, model, language⟩] },
   jobId)

/-- Response of POST /api/transcribe-youtube. -/
inductive YtResp where
  | detailsError
  | tooLong (duration : Nat)
  | accepted (jobId : String)
deriving DecidableEq, Repr

/-- POST /api/transcribe-youtube (lines 672-758), from the point where
getYoutubeVideoDetails has settled (`vd` is its result, `none` when it
threw); the earlier URL-extraction rejections touch no state.  A duration
above 1800 seconds is rejected before any job or queue entry is created.
Otherwise the started record is stored, the response sent, and
downloadYoutubeAudio synchronously stores the processing record and opens
the download (destructuring defaults: only an absent field falls back). -/
def transcribeYoutubeHandler (s : Sys) (videoId : String)
    (vd : Option VideoDetails) (model? language? : Option String) : Sys × YtResp :=
  match vd with
  | none => (s, .detailsError)
  | some d =>
    if 1800 < d.duration then
      (s, .tooLong d.duration)
    else
      let jobId := jobIdOf s.now
      let model := model?.getD "medium"
      let language := language?.getD "en"
      let outputPath := UPLOAD_DIR ++ "/" ++ toString s.now ++ "-youtube-" ++ videoId ++ ".mp3"
      let reg1 := setReg s.reg jobId (ytStartedRec d videoId model language s.now)
      let reg2 := setReg reg1 jobId ytDownloadRec
      ({ s with reg := reg2,
                downloads := s.downloads ++ [⟨jobId, videoId, model, language, outputPath⟩] },
       .accepted jobId)

/-! ## The event steps -/

/-- One dispatch cycle of processQueue (lines 326-351) up to its await:
return unless idle, queue non-empty and below the concurrency cap; shift
the head; transcribeAudio either stores an input-not-found error and
resolves at once (isProcessing toggles back in the same cycle), or
validates the model, spawns the engine and leaves the worker blocked. -/
def dispatchStep (s : Sys) (fs : FS) : Option Sys :=
  if s.isProcessing then none
  else match s.queue with
  | [] => none
  | q :: rest =>
    if MAX_CONCURRENT_JOBS ≤ s.activeJobs then none
    else if fs q.filePath = none then
      some { s with queue := rest,
                    reg := setReg s.reg q.jobId (inputNotFoundRec q.filePath) }
    else
      some { s with queue := rest,
                    isProcessing := true,
                    activeJobs := s.activeJobs + 1,
                    running := s.running ++ [⟨q.jobId, q.filePath, validModelOf q.model, q.language, "", ""⟩] }

/-- A stdout data event of the engine subprocess (lines 418-439). -/
def stdoutStep (s : Sys) (k : Nat) (chunk : String) : Option Sys :=
  match s.running[k]? with
  | none => none
  | some rj =>
    let accumulated := rj.output ++ chunk
    some { s with reg := setReg s.reg rj.jobId (stdoutProcessingRec chunk accumulated),
                  running := s.running.set k { rj with output := accumulated } }

/-- A stderr data event of the engine subprocess (lines 441-445). -/
def stderrStep (s : Sys) (k : Nat) (chunk : String) : Option Sys :=
  match s.running[k]? with
  | none => none
  | some rj =>
    some { s with running := s.running.set k { rj with errorOutput := rj.errorOutput ++ chunk } }

/-- The close event of the engine subprocess followed by the resumption of
the awaiting processQueue cycle: the close handler stores its record and
settles the promise; on rejection the catch block stores the
queueCatchRec on top; either way the active-job count drops, the cycle
ends and the loop re-triggers. -/
def closeStep (s : Sys) (k : Nat) (code : Option Int) (fs : FS)
    (parse : JsonSegParse) : Option Sys :=
  match s.running[k]? with
  | none => none
  | some rj =>
    let res := closeHandler fs parse rj.inputPath rj.validModel rj.language rj.errorOutput s.now code
    let reg1 := setReg s.reg rj.jobId res.entry
    let reg2 := if res.ok then reg1
                else setReg reg1 rj.jobId (queueCatchRec "Transcription file not found")
    some { s with reg := reg2,
                  running := s.running.eraseIdx k,
                  activeJobs := s.activeJobs - 1,
                  isProcessing := false }

/-- The error event of the engine subprocess (spawn failure, lines
499-503) and the resulting rejection through the catch of processQueue. -/
def spawnErrStep (s : Sys) (k : Nat) (message : String) : Option Sys :=
  match s.running[k]? with
  | none => none
  | some rj =>
    let reg1 := setReg s.reg rj.jobId { status := .error, error := some message }
    some { s with reg := setReg reg1 rj.jobId (queueCatchRec message),
                  running := s.running.eraseIdx k,
                  activeJobs := s.activeJobs - 1,
                  isProcessing := false }

/-- A progress event of the YouTube download or conversion. -/
def ytProgressStep (s : Sys) (k : Nat) (pct : Nat) (converting : Bool) : Option Sys :=
  match s.downloads[k]? with
  | none => none
  | some dl =>
    some { s with reg := setReg s.reg dl.jobId (ytProgressRec pct converting) }

/-- The end event of the YouTube conversion: the acquired audio is queued
for transcription and the loop re-triggers. -/
def ytDoneStep (s : Sys) (k : Nat) : Option Sys :=
  match s.downloads[k]? with
  | none => none
  | some dl =>
    some { s with downloads := s.downloads.eraseIdx k,
                  queue := s.queue ++ [⟨dl.outputPath, dl.jobId, dl.model, dl.language⟩] }

/-- A failure of the YouTube download pipeline, caught by the handler. -/
def ytFailStep (s : Sys) (k : Nat) (message : String) : Option Sys :=
  match s.downloads[k]? with
  | none => none
  | some dl =>
    some { s with downloads := s.downloads.eraseIdx k,
                  reg := setReg s.reg dl.jobId (ytFailRec message) }

/-- The observable events of the backend.  In-flight subprocesses and
downloads are addressed by their position, since the source addresses them
by closure identity.  Filesystem contents and the JSON parser arrive with
the event that consults them (environment nondeterminism). -/
inductive Act where
  | tick
  | submitUpload (origName : String) (size : Nat) (model? language? : Option String)
  | dispatch (fs : FS)
  | stdout (k : Nat) (chunk : String)
  | stderr (k : Nat) (chunk : String)
  | close (k : Nat) (code : Option Int) (fs : FS) (parse : JsonSegParse)
  | spawnErr (k : Nat) (message : String)
  | ytSubmit (videoId : String) (vd : Option VideoDetails) (model? language? : Option String)
  | ytProgress (k : Nat) (pct : Nat) (converting : Bool)
  | ytDone (k : Nat)
  | ytFail (k : Nat) (message : String)

/-- The small-step semantics; `none` when the event is not enabled. -/
def step (s : Sys) : Act → Option Sys
  | .tick => some { s with now := s.now + 1 }
  | .submitUpload origName size model? language? =>
      some (uploadHandler s origName size model? language?).1
  | .dispatch fs => dispatchStep s fs
  | .stdout k chunk => stdoutStep s k chunk
  | .stderr k chunk => stderrStep s k chunk
  | .close k code fs parse => closeStep s k code fs parse
  | .spawnErr k message => spawnErrStep s k message
  | .ytSubmit videoId vd model? language? =>
      some (transcribeYoutubeHandler s videoId vd model? language?).1
  | .ytProgress k pct converting => ytProgressStep s k pct converting
  | .ytDone k => ytDoneStep s k
  | .ytFail k message => ytFailStep s k message

/-- Execute a list of events. -/
def run (s : Sys) : List Act → Option Sys
  | [] => some s
  | a :: rest =>
    match step s a with
    | some s' => run s' rest
    | none => none

/-- States reachable from server start. -/
inductive Reach : Sys → Prop where
  | init : Reach initSys
  | next {s s' : Sys} (a : Act) : Reach s → step s a = some s' → Reach s'

theorem Reach.of_run {acts : List Act} {s₀ s : Sys} (h₀ : Reach s₀)
    (h : run s₀ acts = some s) : Reach s := by
  induction acts generalizing s₀ with
  | nil =>
    have : s₀ = s := by simpa [run] using h
    exact this ▸ h₀
  | cons a rest ih =>
    simp only [run] at h
    cases hs : step s₀ a with
    | none => rw [hs] at h; exact absurd h (by simp)
    | some s₁ => rw [hs] at h; exact ih (Reach.next a h₀ hs) h

/-- A submission event allocates a fresh id: true at every step of a trace
whose submissions never share a clock millisecond (the id is the clock
value, and ids present in the registry were allocated at earlier calls).
An over-long YouTube submission allocates nothing and needs no freshness. -/
def freshAct (s : Sys) (a : Act) : Bool :=
  match a with
  | .submitUpload _ _ _ _ => (s.reg (jobIdOf s.now)).isNone
  | .ytSubmit _ (some d) _ _ => decide (1800 < d.duration) || (s.reg (jobIdOf s.now)).isNone
  | _ => true

/-- Reachability along collision-free traces. -/
inductive ReachF : Sys → Prop where
  | init : ReachF initSys
  | next {s s' : Sys} (a : Act) : ReachF s → freshAct s a = true → step s a = some s' → ReachF s'

/-- Execute a list of events, checking freshness of every submission. -/
def runF (s : Sys) : List Act → Option Sys
  | [] => some s
  | a :: rest =>
    if freshAct s a then
      match step s a with
      | some s' => runF s' rest
      | none => none
    else none

theorem ReachF.of_runF {acts : List Act} {s₀ s : Sys} (h₀ : ReachF s₀)
    (h : runF s₀ acts = some s) : ReachF s := by
  induction acts generalizing s₀ with
  | nil =>
    have : s₀ = s := by simpa [runF] using h
    exact this ▸ h₀
  | cons a rest ih =>
    simp only [runF] at h
    by_cases hf : freshAct s₀ a = true
    · rw [if_pos hf] at h
      cases hs : step s₀ a with
      | none => rw [hs] at h; exact absurd h (by simp)
      | some s₁ => rw [hs] at h; exact ih (ReachF.next a h₀ hf hs) h
    · rw [if_neg hf] at h; exact absurd h (by simp)

theorem runF_run {acts : List Act} {s₀ s : Sys} (h : runF s₀ acts = some s) :
    run s₀ acts = some s := by
  induction acts generalizing s₀ with
  | nil => simpa [runF, run] using h
  | cons a rest ih =>
    simp only [runF] at h
    by_cases hf : freshAct s₀ a = true
    · rw [if_pos hf] at h
      cases hs : step s₀ a with
      | none => rw [hs] at h; exact absurd h (by simp)
      | some s₁ =>
        rw [hs] at h
        simp only [run, hs]
        exact ih h
    · rw [if_neg hf] at h; exact absurd h (by simp)

/-! ## List bookkeeping lemmas -/

theorem list_set_of_getElem {α : Type} {l : List α} {k : Nat} {x : α}
    (h : l[k]? = some x) : l.set k x = l := by
  induction l generalizing k with
  | nil => simp at h
  | cons b t ih =>
    cases k with
    | zero => simp only [List.getElem?_cons_zero, Option.some.injEq] at h; simp [h]
    | succ k =>
      simp only [List.getElem?_cons_succ] at h
      simp [ih h]

theorem map_eraseIdx {α β : Type} (f : α → β) (l : List α) (k : Nat) :
    (l.eraseIdx k).map f = (l.map f).eraseIdx k := by
  induction l generalizing k with
  | nil => simp
  | cons b t ih => cases k <;> simp [List.eraseIdx, ih]

theorem perm_cons_eraseIdx {α : Type} {l : List α} {k : Nat} {x : α}
    (h : l[k]? = some x) : l.Perm (x :: l.eraseIdx k) := by
  induction l generalizing k with
  | nil => simp at h
  | cons b t ih =>
    cases k with
    | zero =>
      simp only [List.getElem?_cons_zero, Option.some.injEq] at h
      subst h; simp
    | succ k =>
      simp only [List.getElem?_cons_succ] at h
      simp only [List.eraseIdx_cons_succ]
      exact ((ih h).cons b).trans (List.Perm.swap x b _)

/-! ## Invariants of the reachable states -/

/-- Job ids with a pending, running or downloading record attached. -/
def activeIds (s : Sys) : List String :=
  s.queue.map QItem.jobId ++ s.running.map RunJob.jobId ++ s.downloads.map DlJob.jobId

/-- A record whose status is not terminal. -/
def nonterminal (r : JobRec) : Prop :=
  r.status ≠ .completed ∧ r.status ≠ .error

/-- Concurrency bookkeeping: the active-job counter equals the number of
in-flight engine subprocesses and respects the configured cap. -/
def InvC (s : Sys) : Prop :=
  s.activeJobs = s.running.length ∧ s.activeJobs ≤ MAX_CONCURRENT_JOBS

theorem invC_init : InvC initSys := by constructor <;> simp [initSys, MAX_CONCURRENT_JOBS]

theorem invC_step {s s' : Sys} {a : Act} (hI : InvC s) (hs : step s a = some s') :
    InvC s' := by
  obtain ⟨h1, h2⟩ := hI
  cases a with
  | tick =>
    simp only [step, Option.some.injEq] at hs
    subst hs; exact ⟨h1, h2⟩
  | submitUpload origName size model? language? =>
    simp only [step, uploadHandler, Option.some.injEq] at hs
    subst hs; exact ⟨h1, h2⟩
  | dispatch fs =>
    simp only [step, dispatchStep] at hs
    split at hs
    · exact absurd hs (by simp)
    · split at hs
      · exact absurd hs (by simp)
      · split at hs
        · exact absurd hs (by simp)
        · split at hs
          · simp only [Option.some.injEq] at hs
            subst hs; exact ⟨h1, h2⟩
          · simp only [Option.some.injEq] at hs
            subst hs
            refine ⟨by simp [h1], ?_⟩
            simp only [MAX_CONCURRENT_JOBS] at *
            omega
  | stdout k chunk =>
    simp only [step, stdoutStep] at hs
    split at hs
    · exact absurd hs (by simp)
    · simp only [Option.some.injEq] at hs
      subst hs
      exact ⟨by simp [h1], h2⟩
  | stderr k chunk =>
    simp only [step, stderrStep] at hs
    split at hs
    · exact absurd hs (by simp)
    · simp only [Option.some.injEq] at hs
      subst hs
      exact ⟨by simp [h1], h2⟩
  | close k code fs parse =>
    simp only [step, closeStep] at hs
    split at hs
    · exact absurd hs (by simp)
    · rename_i rj hrj
      simp only [Option.some.injEq] at hs
      subst hs
      have hk : k < s.running.length := (List.getElem?_eq_some_iff.mp hrj).1
      refine ⟨?_, ?_⟩
      · show s.activeJobs - 1 = (s.running.eraseIdx k).length
        rw [List.length_eraseIdx, if_pos hk]
        omega
      · show s.activeJobs - 1 ≤ MAX_CONCURRENT_JOBS
        omega
  | spawnErr k message =>
    simp only [step, spawnErrStep] at hs
    split at hs
    · exact absurd hs (by simp)
    · rename_i rj hrj
      simp only [Option.some.injEq] at hs
      subst hs
      have hk : k < s.running.length := (List.getElem?_eq_some_iff.mp hrj).1
      refine ⟨?_, ?_⟩
      · show s.activeJobs - 1 = (s.running.eraseIdx k).length
        rw [List.length_eraseIdx, if_pos hk]
        omega
      · show s.activeJobs - 1 ≤ MAX_CONCURRENT_JOBS
        omega
  | ytSubmit videoId vd model? language? =>
    simp only [step, transcribeYoutubeHandler] at hs
    cases vd with
    | none => simp only [Option.some.injEq] at hs; subst hs; exact ⟨h1, h2⟩
    | some d =>
      simp only at hs
      split at hs
      · simp only [Option.some.injEq] at hs; subst hs; exact ⟨h1, h2⟩
      · simp only [Option.some.injEq] at hs; subst hs; exact ⟨h1, h2⟩
  | ytProgress k pct converting =>
    simp only [step, ytProgressStep] at hs
    split at hs
    · exact absurd hs (by simp)
    · simp only [Option.some.injEq] at hs; subst hs; exact ⟨h1, h2⟩
  | ytDone k =>
    simp only [step, ytDoneStep] at hs
    split at hs
    · exact absurd hs (by simp)
    · simp only [Option.some.injEq] at hs; subst hs; exact ⟨h1, h2⟩
  | ytFail k message =>
    simp only [step, ytFailStep] at hs
    split at hs
    · exact absurd hs (by simp)
    · simp only [Option.some.injEq] at hs; subst hs; exact ⟨h1, h2⟩

theorem invC_reach {s : Sys} (h : Reach s) : InvC s := by
  induction h with
  | init => exact invC_init
  | next a _ hs ih => exact invC_step ih hs

theorem reachF_reach {s : Sys} (h : ReachF s) : Reach s := by
  induction h with
  | init => exact Reach.init
  | next a _ _ hs ih => exact Reach.next a ih hs

/-- Registry identity invariant along collision-free traces: the active ids
are pairwise distinct and each is registered with a non-terminal record. -/
def InvF (s : Sys) : Prop :=
  (activeIds s).Nodup ∧
  ∀ id ∈ activeIds s, ∃ r, s.reg id = some r ∧ nonterminal r

theorem invF_init : InvF initSys := by
  constructor
  · simp [activeIds, initSys]
  · intro id h
    simp [activeIds, initSys] at h

/-- Preservation shape: a step that removes one active id `w` and writes
the registry only at `w`. -/
theorem invF_remove {s s' : Sys} {w : String}
    (hp : (activeIds s).Perm (w :: activeIds s'))
    (hreg : ∀ id, id ≠ w → s'.reg id = s.reg id)
    (hI : InvF s) : InvF s' := by
  obtain ⟨hN, hR⟩ := hI
  have hN' : (w :: activeIds s').Nodup := hp.nodup_iff.mp hN
  refine ⟨(List.nodup_cons.mp hN').2, ?_⟩
  intro id hid
  have hwne : id ≠ w := by
    intro hEq
    exact (List.nodup_cons.mp hN').1 (hEq ▸ hid)
  have hmem : id ∈ activeIds s := hp.mem_iff.mpr (List.mem_cons_of_mem w hid)
  obtain ⟨r, hr, hnt⟩ := hR id hmem
  exact ⟨r, (hreg id hwne).trans hr, hnt⟩

/-- Preservation shape: a step that keeps the active ids (up to order) and
writes the registry only at an active id `w`, with a non-terminal record. -/
theorem invF_write {s s' : Sys} {w : String} {v : JobRec}
    (hp : (activeIds s).Perm (activeIds s'))
    (hreg : ∀ id, s'.reg id = if id = w then some v else s.reg id)
    (hv : nonterminal v)
    (hI : InvF s) : InvF s' := by
  obtain ⟨hN, hR⟩ := hI
  refine ⟨hp.nodup_iff.mp hN, ?_⟩
  intro id hid
  by_cases hEq : id = w
  · exact ⟨v, by rw [hreg, if_pos hEq], hv⟩
  · obtain ⟨r, hr, hnt⟩ := hR id (hp.mem_iff.mpr hid)
    exact ⟨r, by rw [hreg, if_neg hEq]; exact hr, hnt⟩

/-- Preservation shape: a step that adds one fresh id `j` to the active
ids and writes the registry only at `j`, with a non-terminal record. -/
theorem invF_append {s s' : Sys} {j : String} {v : JobRec}
    (hp : (activeIds s').Perm (j :: activeIds s))
    (hfresh : s.reg j = none)
    (hreg : ∀ id, s'.reg id = if id = j then some v else s.reg id)
    (hv : nonterminal v)
    (hI : InvF s) : InvF s' := by
  obtain ⟨hN, hR⟩ := hI
  have hj : j ∉ activeIds s := by
    intro hmem
    obtain ⟨r, hr, _⟩ := hR j hmem
    rw [hfresh] at hr
    exact absurd hr (by simp)
  refine ⟨hp.nodup_iff.mpr (List.nodup_cons.mpr ⟨hj, hN⟩), ?_⟩
  intro id hid
  rcases List.mem_cons.mp (hp.mem_iff.mp hid) with hEq | hmem
  · exact ⟨v, by rw [hreg, if_pos hEq], hv⟩
  · have hne : id ≠ j := by
      intro hEq
      exact hj (hEq ▸ hmem)
    obtain ⟨r, hr, hnt⟩ := hR id hmem
    exact ⟨r, by rw [hreg, if_neg hne]; exact hr, hnt⟩

/-- Preservation shape: active ids and registry both unchanged. -/
theorem invF_keep {s s' : Sys}
    (hp : (activeIds s).Perm (activeIds s'))
    (hreg : ∀ id, s'.reg id = s.reg id)
    (hI : InvF s) : InvF s' := by
  obtain ⟨hN, hR⟩ := hI
  refine ⟨hp.nodup_iff.mp hN, ?_⟩
  intro id hid
  obtain ⟨r, hr, hnt⟩ := hR id (hp.mem_iff.mpr hid)
  exact ⟨r, (hreg id).trans hr, hnt⟩

theorem perm_app_mid {α : Type} (q r d : List α) (j : α) :
    (((q ++ [j]) ++ r ++ d)).Perm (j :: (q ++ r ++ d)) := by
  have h1 : (q ++ [j]) ++ r ++ d = q ++ j :: (r ++ d) := by simp
  have h2 : q ++ r ++ d = q ++ (r ++ d) := List.append_assoc q r d
  rw [h1, h2]
  exact List.perm_middle

theorem perm_app_last {α : Type} (q r d : List α) (j : α) :
    ((q ++ r ++ (d ++ [j]))).Perm (j :: (q ++ r ++ d)) := by
  have h1 : q ++ r ++ (d ++ [j]) = (q ++ r ++ d) ++ [j] := by simp
  rw [h1]
  exact List.perm_append_singleton _ _

theorem perm_transfer_run {α : Type} (q r d : List α) (w : α) :
    ((w :: (q ++ r ++ d))).Perm (q ++ (r ++ [w]) ++ d) := by
  have h1 : q ++ (r ++ [w]) ++ d = (q ++ r) ++ w :: d := by simp
  rw [h1]
  exact List.perm_middle.symm

theorem perm_transfer_dl {α : Type} (q r d d' : List α) (w : α) (hd : d.Perm (w :: d')) :
    ((q ++ r ++ d)).Perm ((q ++ [w]) ++ r ++ d') := by
  have h1 : (q ++ r ++ d).Perm ((q ++ r) ++ (w :: d')) := List.Perm.append_left _ hd
  exact h1.trans (List.perm_middle.trans (perm_app_mid q r d' w).symm)

theorem perm_remove_run {α : Type} (q r d r' : List α) (w : α) (hr : r.Perm (w :: r')) :
    ((q ++ r ++ d)).Perm (w :: (q ++ r' ++ d)) := by
  have h1 : (q ++ r ++ d).Perm (q ++ (w :: r') ++ d) :=
    List.Perm.append_right d (List.Perm.append_left q hr)
  have h2 : q ++ (w :: r') ++ d = q ++ w :: (r' ++ d) := by simp
  rw [h2] at h1
  refine h1.trans ?_
  rw [List.append_assoc]
  exact List.perm_middle

theorem perm_remove_dl {α : Type} (q r d d' : List α) (w : α) (hd : d.Perm (w :: d')) :
    ((q ++ r ++ d)).Perm (w :: (q ++ r ++ d')) := by
  have h1 : (q ++ r ++ d).Perm ((q ++ r) ++ (w :: d')) := List.Perm.append_left _ hd
  exact h1.trans List.perm_middle

theorem map_set_eq {α β : Type} {l : List α} {k : Nat} {x : α} (f : α → β) (y : α)
    (h : l[k]? = some x) (hf : f y = f x) : (l.set k y).map f = l.map f := by
  rw [List.map_set]
  refine list_set_of_getElem ?_
  rw [List.getElem?_map, h]
  simp [hf]

theorem stdoutProcessingRec_status (chunk accumulated : String) :
    (stdoutProcessingRec chunk accumulated).status = .processing := by
  unfold stdoutProcessingRec
  cases firstPercent chunk <;> rfl

/-- One step preserves the identity invariant, provided submissions are
collision-free. -/
theorem invF_step {s s' : Sys} {a : Act} (hI : InvF s) (hf : freshAct s a = true)
    (hs : step s a = some s') : InvF s' := by
  cases a with
  | tick =>
    simp only [step, Option.some.injEq] at hs
    subst hs
    exact @invF_keep s _ (List.Perm.refl _) (fun id => rfl) hI
  | submitUpload origName size model? language? =>
    simp only [step, uploadHandler, Option.some.injEq] at hs
    subst hs
    have hfresh : s.reg (jobIdOf s.now) = none := by
      simp only [freshAct, Option.isNone_iff_eq_none] at hf
      exact hf
    refine @invF_append s _ (jobIdOf s.now) _ ?_ hfresh (fun id => rfl) ?_ hI
    · simp only [activeIds, List.map_append, List.map_cons, List.map_nil]
      exact perm_app_mid _ _ _ _
    · exact ⟨by simp [uploadStartedRec], by simp [uploadStartedRec]⟩
  | dispatch fs =>
    simp only [step, dispatchStep] at hs
    split at hs
    · exact absurd hs (by simp)
    · split at hs
      · exact absurd hs (by simp)
      · rename_i q rest hq
        split at hs
        · exact absurd hs (by simp)
        · split at hs
          · -- input file missing: head removed, its registry entry set to error
            simp only [Option.some.injEq] at hs
            subst hs
            refine @invF_remove s _ q.jobId ?_ ?_ hI
            · simp only [activeIds]
              rw [hq]
              exact List.Perm.refl _
            · intro id hne
              simp [setReg, hne]
          · -- engine spawned: head moves from the queue to the running list
            simp only [Option.some.injEq] at hs
            subst hs
            refine @invF_keep s _ ?_ (fun id => rfl) hI
            simp only [activeIds]
            rw [hq]
            simp only [List.map_cons, List.map_append, List.map_nil, List.cons_append]
            exact perm_transfer_run _ _ _ _
  | stdout k chunk =>
    simp only [step, stdoutStep] at hs
    split at hs
    · exact absurd hs (by simp)
    · rename_i rj hrj
      simp only [Option.some.injEq] at hs
      subst hs
      refine @invF_write s _ rj.jobId _ ?_ (fun id => rfl) ?_ hI
      · simp only [activeIds]
        rw [map_set_eq RunJob.jobId { rj with output := rj.output ++ chunk } hrj rfl]
      · constructor <;> rw [stdoutProcessingRec_status] <;> simp
  | stderr k chunk =>
    simp only [step, stderrStep] at hs
    split at hs
    · exact absurd hs (by simp)
    · rename_i rj hrj
      simp only [Option.some.injEq] at hs
      subst hs
      refine @invF_keep s _ ?_ (fun id => rfl) hI
      simp only [activeIds]
      rw [map_set_eq RunJob.jobId { rj with errorOutput := rj.errorOutput ++ chunk } hrj rfl]
  | close k code fs parse =>
    simp only [step, closeStep] at hs
    split at hs
    · exact absurd hs (by simp)
    · rename_i rj hrj
      simp only [Option.some.injEq] at hs
      subst hs
      refine @invF_remove s _ rj.jobId ?_ ?_ hI
      · simp only [activeIds]
        refine perm_remove_run _ _ _ _ _ ?_
        rw [map_eraseIdx]
        exact perm_cons_eraseIdx (by rw [List.getElem?_map, hrj]; rfl)
      · intro id hne
        by_cases hok : (closeHandler fs parse rj.inputPath rj.validModel rj.language rj.errorOutput s.now code).ok
          <;> simp [setReg, hok, hne]
  | spawnErr k message =>
    simp only [step, spawnErrStep] at hs
    split at hs
    · exact absurd hs (by simp)
    · rename_i rj hrj
      simp only [Option.some.injEq] at hs
      subst hs
      refine @invF_remove s _ rj.jobId ?_ ?_ hI
      · simp only [activeIds]
        refine perm_remove_run _ _ _ _ _ ?_
        rw [map_eraseIdx]
        exact perm_cons_eraseIdx (by rw [List.getElem?_map, hrj]; rfl)
      · intro id hne
        simp [setReg, hne]
  | ytSubmit videoId vd model? language? =>
    simp only [step, transcribeYoutubeHandler] at hs
    cases vd with
    | none =>
      simp only [Option.some.injEq] at hs
      subst hs
      exact @invF_keep s _ (List.Perm.refl _) (fun id => rfl) hI
    | some d =>
      simp only at hs
      split at hs
      · simp only [Option.some.injEq] at hs
        subst hs
        exact @invF_keep s _ (List.Perm.refl _) (fun id => rfl) hI
      · rename_i hdur
        simp only [Option.some.injEq] at hs
        subst hs
        have hfresh : s.reg (jobIdOf s.now) = none := by
          simp only [freshAct, Bool.or_eq_true, decide_eq_true_eq,
            Option.isNone_iff_eq_none] at hf
          rcases hf with h | h
          · exact absurd h hdur
          · exact h
        refine @invF_append s _ (jobIdOf s.now) ytDownloadRec ?_ hfresh ?_ ?_ hI
        · simp only [activeIds, List.map_append, List.map_cons, List.map_nil]
          exact perm_app_last _ _ _ _
        · intro id
          by_cases h : id = jobIdOf s.now <;> simp [setReg, h]
        · constructor <;> simp [ytDownloadRec]
  | ytProgress k pct converting =>
    simp only [step, ytProgressStep] at hs
    split at hs
    · exact absurd hs (by simp)
    · rename_i dl hdl
      simp only [Option.some.injEq] at hs
      subst hs
      refine @invF_write s _ dl.jobId _ ?_ (fun id => rfl) ?_ hI
      · exact List.Perm.refl _
      · constructor <;> simp [ytProgressRec]
  | ytDone k =>
    simp only [step, ytDoneStep] at hs
    split at hs
    · exact absurd hs (by simp)
    · rename_i dl hdl
      simp only [Option.some.injEq] at hs
      subst hs
      refine @invF_keep s _ ?_ (fun id => rfl) hI
      have hd : (s.downloads.map DlJob.jobId).Perm
          (dl.jobId :: (s.downloads.eraseIdx k).map DlJob.jobId) := by
        rw [map_eraseIdx]
        exact perm_cons_eraseIdx (by rw [List.getElem?_map, hdl]; rfl)
      simp only [activeIds, List.map_append, List.map_cons, List.map_nil]
      exact perm_transfer_dl _ _ _ _ _ hd
  | ytFail k message =>
    simp only [step, ytFailStep] at hs
    split at hs
    · exact absurd hs (by simp)
    · rename_i dl hdl
      simp only [Option.some.injEq] at hs
      subst hs
      refine @invF_remove s _ dl.jobId ?_ ?_ hI
      · simp only [activeIds]
        refine perm_remove_dl _ _ _ _ _ ?_
        rw [map_eraseIdx]
        exact perm_cons_eraseIdx (by rw [List.getElem?_map, hdl]; rfl)
      · intro id hne
        simp [setReg, hne]

theorem invF_reachF {s : Sys} (h : ReachF s) : InvF s := by
  induction h with
  | init => exact invF_init
  | next a _ hf hs ih => exact invF_step ih hf hs

/-! ## Status ordering along the lifecycle -/

/-- A status from which the spec allows no further transition. -/
def terminalStatus (st : Status) : Prop := st = .completed ∨ st = .error

/-- Position of a status along the lifecycle path. -/
def statusRank : Status → Nat
  | .started => 0
  | .processing => 1
  | .completed => 2
  | .error => 2

theorem statusRank_le_two (st : Status) : statusRank st ≤ 2 := by
  cases st <;> simp [statusRank]

theorem not_terminal_of_nonterminal {r : JobRec} (h : nonterminal r) :
    ¬terminalStatus r.status := fun hc => hc.elim h.1 h.2

theorem rank_le_one_of_nonterminal {r : JobRec} (h : nonterminal r) :
    statusRank r.status ≤ 1 := by
  obtain ⟨h1, h2⟩ := h
  cases hst : r.status <;> simp [statusRank] <;> rw [hst] at h1 h2 <;> simp at h1 h2

theorem mem_active_queue {s : Sys} {q : QItem} (h : q ∈ s.queue) :
    q.jobId ∈ activeIds s := by
  simp only [activeIds, List.mem_append, List.mem_map]
  exact Or.inl (Or.inl ⟨q, h, rfl⟩)

theorem mem_active_running {s : Sys} {k : Nat} {rj : RunJob}
    (h : s.running[k]? = some rj) : rj.jobId ∈ activeIds s := by
  simp only [activeIds, List.mem_append, List.mem_map]
  exact Or.inl (Or.inr ⟨rj, List.getElem?_mem h, rfl⟩)

theorem mem_active_downloads {s : Sys} {k : Nat} {dl : DlJob}
    (h : s.downloads[k]? = some dl) : dl.jobId ∈ activeIds s := by
  simp only [activeIds, List.mem_append, List.mem_map]
  exact Or.inr ⟨dl, List.getElem?_mem h, rfl⟩

theorem active_not_terminal {s : Sys} (hI : InvF s) {w : String}
    (hmem : w ∈ activeIds s) :
    ∀ w0, s.reg w = some w0 → ¬terminalStatus w0.status := by
  intro w0 hw0
  obtain ⟨r, hr, hnt⟩ := hI.2 w hmem
  have : r = w0 := Option.some.inj (hr.symm.trans hw0)
  exact this ▸ not_terminal_of_nonterminal hnt

theorem active_rank_le_one {s : Sys} (hI : InvF s) {w : String}
    (hmem : w ∈ activeIds s) :
    ∀ w0, s.reg w = some w0 → statusRank w0.status ≤ 1 := by
  intro w0 hw0
  obtain ⟨r, hr, hnt⟩ := hI.2 w hmem
  have : r = w0 := Option.some.inj (hr.symm.trans hw0)
  exact this ▸ rank_le_one_of_nonterminal hnt

/-- Write shape of a step: the registry changes at one id only, which was
not terminal before, and its status rank does not decrease. -/
theorem mono_single {s : Sys} {reg' : Reg} {w : String} {v : JobRec}
    (hreg : ∀ id, reg' id = if id = w then some v else s.reg id)
    (hnt : ∀ w0, s.reg w = some w0 → ¬terminalStatus w0.status)
    (hmono : ∀ w0, s.reg w = some w0 → statusRank w0.status ≤ statusRank v.status) :
    (∀ id r, s.reg id = some r → terminalStatus r.status → reg' id = some r) ∧
    (∀ id r r', s.reg id = some r → reg' id = some r' →
      statusRank r.status ≤ statusRank r'.status) := by
  constructor
  · intro id r hr hterm
    rcases eq_or_ne id w with hEq | hne
    · exact absurd hterm (hnt r (hEq ▸ hr))
    · rw [hreg, if_neg hne]
      exact hr
  · intro id r r' hr hr'
    rcases eq_or_ne id w with hEq | hne
    · have hv : r' = v := by
        rw [hreg, if_pos hEq] at hr'
        exact (Option.some.inj hr').symm
      rw [hv]
      exact hmono r (hEq ▸ hr)
    · rw [hreg, if_neg hne, hr] at hr'
      rw [Option.some.inj hr']

/-- No-write shape of a step. -/
theorem mono_keep {s : Sys} {reg' : Reg} (hreg : ∀ id, reg' id = s.reg id) :
    (∀ id r, s.reg id = some r → terminalStatus r.status → reg' id = some r) ∧
    (∀ id r r', s.reg id = some r → reg' id = some r' →
      statusRank r.status ≤ statusRank r'.status) := by
  constructor
  · intro id r hr _
    rw [hreg]
    exact hr
  · intro id r r' hr hr'
    rw [hreg, hr] at hr'
    rw [Option.some.inj hr']

/-- Along a collision-free trace, one step never moves a registry entry
backwards along the lifecycle and never touches a terminal entry. -/
theorem step_monotone {s s' : Sys} {a : Act} (hR : ReachF s) (hf : freshAct s a = true)
    (hs : step s a = some s') :
    (∀ id r, s.reg id = some r → terminalStatus r.status → s'.reg id = some r) ∧
    (∀ id r r', s.reg id = some r → s'.reg id = some r' →
      statusRank r.status ≤ statusRank r'.status) := by
  have hI : InvF s := invF_reachF hR
  cases a with
  | tick =>
    simp only [step, Option.some.injEq] at hs
    subst hs
    exact mono_keep (fun id => rfl)
  | submitUpload origName size model? language? =>
    simp only [step, uploadHandler, Option.some.injEq] at hs
    subst hs
    have hfresh : s.reg (jobIdOf s.now) = none := by
      simp only [freshAct, Option.isNone_iff_eq_none] at hf
      exact hf
    refine mono_single (fun id => rfl) ?_ ?_ <;>
      (intro w0 hw0; rw [hfresh] at hw0; exact absurd hw0 (by simp))
  | dispatch fs =>
    simp only [step, dispatchStep] at hs
    split at hs
    · exact absurd hs (by simp)
    · split at hs
      · exact absurd hs (by simp)
      · rename_i q rest hq
        split at hs
        · exact absurd hs (by simp)
        · split at hs
          · simp only [Option.some.injEq] at hs
            subst hs
            have hmem : q.jobId ∈ activeIds s :=
              mem_active_queue (by rw [hq]; exact List.mem_cons_self q rest)
            refine mono_single (fun id => rfl) (active_not_terminal hI hmem) ?_
            intro w0 _
            exact le_trans (statusRank_le_two _) (by simp [inputNotFoundRec, statusRank])
          · simp only [Option.some.injEq] at hs
            subst hs
            exact mono_keep (fun id => rfl)
  | stdout k chunk =>
    simp only [step, stdoutStep] at hs
    split at hs
    · exact absurd hs (by simp)
    · rename_i rj hrj
      simp only [Option.some.injEq] at hs
      subst hs
      have hmem := mem_active_running hrj
      refine mono_single (fun id => rfl) (active_not_terminal hI hmem) ?_
      intro w0 hw0
      rw [stdoutProcessingRec_status]
      exact active_rank_le_one hI hmem w0 hw0
  | stderr k chunk =>
    simp only [step, stderrStep] at hs
    split at hs
    · exact absurd hs (by simp)
    · simp only [Option.some.injEq] at hs
      subst hs
      exact mono_keep (fun id => rfl)
  | close k code fs parse =>
    simp only [step, closeStep] at hs
    split at hs
    · exact absurd hs (by simp)
    · rename_i rj hrj
      simp only [Option.some.injEq] at hs
      subst hs
      have hmem := mem_active_running hrj
      by_cases hok : (closeHandler fs parse rj.inputPath rj.validModel rj.language rj.errorOutput s.now code).ok
      · refine @mono_single s _ rj.jobId
          (closeHandler fs parse rj.inputPath rj.validModel rj.language rj.errorOutput s.now code).entry
          ?_ (active_not_terminal hI hmem) ?_
        · intro id
          simp [setReg, hok]
        · intro w0 _
          refine le_trans (statusRank_le_two _) ?_
          unfold closeHandler
          unfold closeHandler at hok
          rcases hfs : fs (txtPathOf rj.inputPath) with _ | t <;> simp [hfs, statusRank] at hok ⊢
      · refine @mono_single s _ rj.jobId (queueCatchRec "Transcription file not found")
          ?_ (active_not_terminal hI hmem) ?_
        · intro id
          by_cases h : id = rj.jobId <;> simp [setReg, hok, h]
        · intro w0 _
          exact le_trans (statusRank_le_two _) (by simp [queueCatchRec, statusRank])
  | spawnErr k message =>
    simp only [step, spawnErrStep] at hs
    split at hs
    · exact absurd hs (by simp)
    · rename_i rj hrj
      simp only [Option.some.injEq] at hs
      subst hs
      have hmem := mem_active_running hrj
      refine @mono_single s _ rj.jobId (queueCatchRec message)
        ?_ (active_not_terminal hI hmem) ?_
      · intro id
        by_cases h : id = rj.jobId <;> simp [setReg, h]
      · intro w0 _
        exact le_trans (statusRank_le_two _) (by simp [queueCatchRec, statusRank])
  | ytSubmit videoId vd model? language? =>
    simp only [step, transcribeYoutubeHandler] at hs
    cases vd with
    | none =>
      simp only [Option.some.injEq] at hs
      subst hs
      exact mono_keep (fun id => rfl)
    | some d =>
      simp only at hs
      split at hs
      · simp only [Option.some.injEq] at hs
        subst hs
        exact mono_keep (fun id => rfl)
      · rename_i hdur
        simp only [Option.some.injEq] at hs
        subst hs
        have hfresh : s.reg (jobIdOf s.now) = none := by
          simp only [freshAct, Bool.or_eq_true, decide_eq_true_eq,
            Option.isNone_iff_eq_none] at hf
          rcases hf with h | h
          · exact absurd h hdur
          · exact h
        refine @mono_single s _ (jobIdOf s.now) ytDownloadRec ?_ ?_ ?_
        · intro id
          by_cases h : id = jobIdOf s.now <;> simp [setReg, h]
        · intro w0 hw0
          rw [hfresh] at hw0
          exact absurd hw0 (by simp)
        · intro w0 hw0
          rw [hfresh] at hw0
          exact absurd hw0 (by simp)
  | ytProgress k pct converting =>
    simp only [step, ytProgressStep] at hs
    split at hs
    · exact absurd hs (by simp)
    · rename_i dl hdl
      simp only [Option.some.injEq] at hs
      subst hs
      have hmem := mem_active_downloads hdl
      refine mono_single (fun id => rfl) (active_not_terminal hI hmem) ?_
      intro w0 hw0
      exact le_trans (active_rank_le_one hI hmem w0 hw0) (by simp [ytProgressRec, statusRank])
  | ytDone k =>
    simp only [step, ytDoneStep] at hs
    split at hs
    · exact absurd hs (by simp)
    · simp only [Option.some.injEq] at hs
      subst hs
      exact mono_keep (fun id => rfl)
  | ytFail k message =>
    simp only [step, ytFailStep] at hs
    split at hs
    · exact absurd hs (by simp)
    · rename_i dl hdl
      simp only [Option.some.injEq] at hs
      subst hs
      have hmem := mem_active_downloads hdl
      refine mono_single (fun id => rfl) (active_not_terminal hI hmem) ?_
      intro w0 _
      exact le_trans (statusRank_le_two _) (by simp [ytFailRec, statusRank])

/-! ## Adapter-level facts used by the claims -/

theorem closeHandler_artifact (fs : FS) (parse : JsonSegParse)
    (inputPath vm lang eo : String) (now : Nat) (code : Option Int) (t : String)
    (hfs : fs (txtPathOf inputPath) = some t) :
    (closeHandler fs parse inputPath vm lang eo now code).ok = true ∧
    (closeHandler fs parse inputPath vm lang eo now code).entry.status = Status.completed ∧
    (closeHandler fs parse inputPath vm lang eo now code).entry.transcription = some t := by
  refine ⟨?_, ?_, ?_⟩ <;> simp [closeHandler, hfs]

theorem closeHandler_noartifact (fs : FS) (parse : JsonSegParse)
    (inputPath vm lang eo : String) (now : Nat) (code : Option Int)
    (hfs : fs (txtPathOf inputPath) = none) :
    closeHandler fs parse inputPath vm lang eo now code =
      { entry := { status := Status.error,
                   error := some "Failed to generate transcription output",
                   details := some (jsOr eo "Unknown error during transcription process") }
        ok := false
        fallbacks := 0 } := by
  simp [closeHandler, hfs]

/-! ## Claim C1 -/

/-- Claim C1: for every job whose transcription subprocess exits, with any
exit code (including none), if the expected .txt artifact exists in the
upload directory under the input file base name, the close event marks the
job completed in the registry with the artifact contents as its
transcript; the legacy close handler behaves the same. -/
theorem artifactPriorityCompleted (s s' : Sys) (k : Nat) (code : Option Int)
    (fs : FS) (parse : JsonSegParse) (rj : RunJob) (t : String)
    (execErr : Option String) (fsAfter : FS)
    (hs : step s (Act.close k code fs parse) = some s')
    (hrj : s.running[k]? = some rj)
    (hfs : fs (txtPathOf rj.inputPath) = some t) :
    ((s'.reg rj.jobId).map JobRec.status = some Status.completed ∧
     (s'.reg rj.jobId).bind JobRec.transcription = some t) ∧
    ((legacyCloseHandler fs rj.inputPath code execErr fsAfter).entry.status = Status.completed ∧
     (legacyCloseHandler fs rj.inputPath code execErr fsAfter).entry.transcription = some t) := by
  simp only [step, closeStep, hrj, Option.some.injEq] at hs
  subst hs
  obtain ⟨hok, hst, htr⟩ := closeHandler_artifact fs parse rj.inputPath rj.validModel
    rj.language rj.errorOutput s.now code t hfs
  refine ⟨⟨?_, ?_⟩, ?_, ?_⟩
  · simp [hok, setReg, hst]
  · simp [hok, setReg, htr]
  · simp [legacyCloseHandler, hfs]
  · simp [legacyCloseHandler, hfs]

def c1sys : Sys :=
  { reg := fun _ => none, queue := [], isProcessing := true, activeJobs := 1,
    running := [⟨"0", UPLOAD_DIR ++ "/0-a.mp3", "medium", "en", "", ""⟩],
    downloads := [], now := 3 }

def c1fs : FS := fun p => if p = UPLOAD_DIR ++ "/0-a.txt" then some "hello world" else none

def c1parse : JsonSegParse := fun _ => none

def c1res : Option JobRec :=
  ((step c1sys (Act.close 0 (some 1) c1fs c1parse)).getD initSys).reg "0"

/-- Concrete instance of claim C1 at exit code 1 with the artifact present. -/
theorem artifactPriorityCompleted_witness :
    (c1res.map JobRec.status = some Status.completed ∧
     c1res.bind JobRec.transcription = some "hello world") ∧
    ((legacyCloseHandler c1fs (UPLOAD_DIR ++ "/0-a.mp3") (some 1) none c1fs).entry.status
        = Status.completed ∧
     (legacyCloseHandler c1fs (UPLOAD_DIR ++ "/0-a.mp3") (some 1) none c1fs).entry.transcription
        = some "hello world") :=
  artifactPriorityCompleted c1sys _ 0 (some 1) c1fs c1parse
    ⟨"0", UPLOAD_DIR ++ "/0-a.mp3", "medium", "en", "", ""⟩ "hello world" none c1fs
    (by rfl) (by rfl) (by rfl)

/-! ## Claim C2 -/

/-- Claim C2 counterexample: in the current revision the close handler
performs zero fallback invocations, not exactly one, and reports the job
failed immediately when the artifact is missing, even though a fallback
re-invocation at the same point would have found an artifact (as the
legacy handler does). -/
theorem fallbackCounterexample :
    (closeHandler (fun _ => none) (fun _ => none)
      (UPLOAD_DIR ++ "/9-a.mp3") "medium" "en" "boom" 9 (some 1)).fallbacks = 0 ∧
    ¬((closeHandler (fun _ => none) (fun _ => none)
      (UPLOAD_DIR ++ "/9-a.mp3") "medium" "en" "boom" 9 (some 1)).fallbacks = 1) ∧
    (closeHandler (fun _ => none) (fun _ => none)
      (UPLOAD_DIR ++ "/9-a.mp3") "medium" "en" "boom" 9 (some 1)).entry.status = Status.error ∧
    (legacyCloseHandler (fun _ => none) (UPLOAD_DIR ++ "/9-a.mp3") (some 1) none
      (fun p => if p = UPLOAD_DIR ++ "/9-a.txt" then some "late" else none)).entry.status
      = Status.completed := by
  refine ⟨by rfl, by decide, by rfl, by rfl⟩

/-- Claim C2 amended: in the current revision, a job whose subprocess
produces no transcript artifact is reported failed immediately, with the
captured stderr as diagnostic detail, and no fallback invocation is
performed; only the legacy close handler performed exactly one
direct-exec fallback in that situation. -/
theorem fallbackAmended (fs : FS) (parse : JsonSegParse)
    (inputPath vm lang eo : String) (now : Nat) (code : Option Int)
    (execErr : Option String) (fsAfter : FS)
    (hfs : fs (txtPathOf inputPath) = none) :
    (closeHandler fs parse inputPath vm lang eo now code).fallbacks = 0 ∧
    (closeHandler fs parse inputPath vm lang eo now code).ok = false ∧
    (closeHandler fs parse inputPath vm lang eo now code).entry =
      { status := Status.error,
        error := some "Failed to generate transcription output",
        details := some (jsOr eo "Unknown error during transcription process") } ∧
    (legacyCloseHandler fs inputPath code execErr fsAfter).fallbacks = 1 := by
  have h := closeHandler_noartifact fs parse inputPath vm lang eo now code hfs
  refine ⟨by rw [h], by rw [h], by rw [h], ?_⟩
  simp only [legacyCloseHandler, hfs]
  cases execErr with
  | some msg => rfl
  | none => cases h2 : fsAfter (txtPathOf inputPath) <;> simp [h2]

/-- Concrete instance of the amended claim C2. -/
theorem fallbackAmended_witness :
    (closeHandler (fun _ => none) (fun _ => none)
      (UPLOAD_DIR ++ "/7-b.mp3") "small" "fr" "stderr log" 7 none).fallbacks = 0 ∧
    (closeHandler (fun _ => none) (fun _ => none)
      (UPLOAD_DIR ++ "/7-b.mp3") "small" "fr" "stderr log" 7 none).ok = false ∧
    (closeHandler (fun _ => none) (fun _ => none)
      (UPLOAD_DIR ++ "/7-b.mp3") "small" "fr" "stderr log" 7 none).entry =
      { status := Status.error,
        error := some "Failed to generate transcription output",
        details := some (jsOr "stderr log" "Unknown error during transcription process") } ∧
    (legacyCloseHandler (fun _ => none) (UPLOAD_DIR ++ "/7-b.mp3") none none (fun _ => none)).fallbacks = 1 :=
  fallbackAmended (fun _ => none) (fun _ => none) (UPLOAD_DIR ++ "/7-b.mp3")
    "small" "fr" "stderr log" 7 none none (fun _ => none) (by rfl)

/-! ## Claim C8 -/

/-- Claim C8 counterexample: the language code "xx" is not in the list
served by GET /api/languages, yet the engine invocation built for it still
passes the language flag with "xx" instead of treating it as
auto-detect. -/
theorem languageValidationCounterexample :
    (∀ l ∈ API_LANGUAGES, l.code ≠ "xx") ∧
    (buildWhisperCmd false none "medium" "xx" "/a.mp3").2 =
      ["/a.mp3", "--model", "medium", "--output_dir", UPLOAD_DIR,
       "--device", "cpu", "--threads", "2", "--language", "xx"] := by
  exact ⟨by decide, by rfl⟩

/-- Claim C8 amended: a requested model outside the allow-list is replaced
by the default model "medium" before invoking the engine; the language,
however, is not validated against the recognized list: only an empty or
literal "auto" language yields auto-detect (no language flag), and any
other string is passed to the engine unchanged. -/
theorem modelLanguageFallback (uf : Bool) (env : Option String) (model lang p : String) :
    (¬(∃ m ∈ AVAILABLE_MODELS, m.id = model) →
      buildWhisperCmd uf env model lang p = buildWhisperCmd uf env "medium" lang p) ∧
    (lang = "" ∨ lang = "auto" →
      buildWhisperCmd uf env model lang p = buildWhisperCmd uf env model "auto" p) ∧
    (lang ≠ "" → lang ≠ "auto" →
      ∃ base, (buildWhisperCmd uf env model lang p).2 = base ++ ["--language", lang] ∨
              (buildWhisperCmd uf env model lang p).2 = base ++ ["--language", lang] ++ [p]) := by
  refine ⟨?_, ?_, ?_⟩
  · intro hmod
    have h1 : validModelOf model = "medium" := by
      simp only [validModelOf]
      rw [if_neg]
      intro hany
      exact hmod (by simpa using hany)
    have h2 : validModelOf "medium" = "medium" := by decide
    simp only [buildWhisperCmd, h1, h2]
  · intro hl
    rcases hl with hl | hl <;> subst hl <;> simp [buildWhisperCmd]
  · intro h1 h2
    cases uf with
    | false =>
      refine ⟨[p, "--model", validModelOf model, "--output_dir", UPLOAD_DIR,
               "--device", "cpu", "--threads", env.getD "2"], Or.inl ?_⟩
      simp [buildWhisperCmd, h1, h2]
    | true =>
      refine ⟨["--model", validModelOf model, "--output_dir", UPLOAD_DIR,
               "--output_format", "all", "--threads", env.getD "4",
               "--beam_size", "5", "--best_of", "5", "--temperature", "0"], Or.inr ?_⟩
      simp [buildWhisperCmd, h1, h2]

/-- Concrete instance of the amended claim C8: an unknown model "turbo"
behaves as "medium", and the unrecognized language "xx" is still passed. -/
theorem modelLanguageFallback_witness :
    (buildWhisperCmd false none "turbo" "xx" "/a.mp3"
      = buildWhisperCmd false none "medium" "xx" "/a.mp3") ∧
    (∃ base, (buildWhisperCmd false none "turbo" "xx" "/a.mp3").2 = base ++ ["--language", "xx"] ∨
             (buildWhisperCmd false none "turbo" "xx" "/a.mp3").2 = base ++ ["--language", "xx"] ++ ["/a.mp3"]) :=
  ⟨(modelLanguageFallback false none "turbo" "xx" "/a.mp3").1 (by decide),
   (modelLanguageFallback false none "turbo" "xx" "/a.mp3").2.2 (by decide) (by decide)⟩

/-! ## Claim C10 -/

/-- Claim C10: when the transcript .txt artifact exists but the sibling
.json segments artifact is absent or does not parse as JSON, the close
event still marks the job completed, with the transcript text and an
empty segments list. -/
theorem segmentsFallbackCompleted (s s' : Sys) (k : Nat) (code : Option Int)
    (fs : FS) (parse : JsonSegParse) (rj : RunJob) (t : String)
    (hs : step s (Act.close k code fs parse) = some s')
    (hrj : s.running[k]? = some rj)
    (hfs : fs (txtPathOf rj.inputPath) = some t)
    (hjson : fs (jsonPathOf rj.inputPath) = none ∨
      ∃ raw, fs (jsonPathOf rj.inputPath) = some raw ∧ parse raw = none) :
    (s'.reg rj.jobId).map JobRec.status = some Status.completed ∧
    (s'.reg rj.jobId).bind JobRec.transcription = some t ∧
    (s'.reg rj.jobId).bind JobRec.segments = some [] := by
  simp only [step, closeStep, hrj, Option.some.injEq] at hs
  subst hs
  obtain ⟨hok, _, _⟩ := closeHandler_artifact fs parse rj.inputPath rj.validModel
    rj.language rj.errorOutput s.now code t hfs
  have hseg : (closeHandler fs parse rj.inputPath rj.validModel rj.language
      rj.errorOutput s.now code).entry.segments = some [] := by
    rcases hjson with hj | ⟨raw, hraw, hparse⟩
    · simp [closeHandler, hfs, hj]
    · simp [closeHandler, hfs, hraw, hparse]
  obtain ⟨_, hst, htr⟩ := closeHandler_artifact fs parse rj.inputPath rj.validModel
    rj.language rj.errorOutput s.now code t hfs
  refine ⟨?_, ?_, ?_⟩
  · simp [hok, setReg, hst]
  · simp [hok, setReg, htr]
  · simp [hok, setReg, hseg]

def c10sys : Sys :=
  { reg := fun _ => none, queue := [], isProcessing := true, activeJobs := 1,
    running := [⟨"5", UPLOAD_DIR ++ "/5-c.mp3", "medium", "en", "", ""⟩],
    downloads := [], now := 6 }

def c10fs : FS := fun p =>
  if p = UPLOAD_DIR ++ "/5-c.txt" then some "text only"
  else if p = UPLOAD_DIR ++ "/5-c.json" then some "not json at all" else none

def c10parse : JsonSegParse := fun _ => none

def c10res : Option JobRec :=
  ((step c10sys (Act.close 0 none c10fs c10parse)).getD initSys).reg "5"

/-- Concrete instance of claim C10: the .json sibling exists but fails to
parse, and the job is still completed with empty segments. -/
theorem segmentsFallbackCompleted_witness :
    c10res.map JobRec.status = some Status.completed ∧
    c10res.bind JobRec.transcription = some "text only" ∧
    c10res.bind JobRec.segments = some [] :=
  segmentsFallbackCompleted c10sys _ 0 none c10fs c10parse
    ⟨"5", UPLOAD_DIR ++ "/5-c.mp3", "medium", "en", "", ""⟩ "text only"
    (by rfl) (by rfl) (by rfl)
    (Or.inr ⟨"not json at all", by rfl, by rfl⟩)

/-! ## Claim C4 -/

def c4acts : List Act :=
  [Act.submitUpload "first.mp3" 11 none none, Act.submitUpload "second.mp3" 22 none none]

/-- Claim C4: two submissions arriving within the same clock millisecond
are both assigned the id "0" (Date.now().toString()), so the ids collide
and the second registry write overwrites the first job. -/
theorem jobIdCollisionBug :
    ((run initSys c4acts).map (fun s => s.queue.map QItem.jobId)) = some ["0", "0"] ∧
    ((run initSys c4acts).map (fun s => (s.reg "0").bind JobRec.filename))
      = some (some "second.mp3") := by
  exact ⟨by rfl, by rfl⟩

/-! ## Claim C3 -/

def c3fs : FS := fun p => if p = UPLOAD_DIR ++ "/1-a.mp3" then some "x" else none

def c3acts : List Act :=
  [ Act.ytSubmit "dQw4w9WgXcQ" (some ⟨"Video T", 600, "Author", "thumb"⟩) none none,
    Act.tick,
    Act.submitUpload "a.mp3" 5 none none,
    Act.dispatch c3fs,
    Act.stdout 0 "10%" ]

/-- Claim C3 counterexample: a reachable state in which two distinct jobs
are simultaneously in the processing status although the concurrency cap
is 1 — the YouTube download path marks its job processing outside the
active-job guard. -/
theorem processingBoundCounterexample :
    Reach ((run initSys c3acts).getD initSys) ∧
    (((run initSys c3acts).getD initSys).reg "0").map JobRec.status = some Status.processing ∧
    (((run initSys c3acts).getD initSys).reg "1").map JobRec.status = some Status.processing ∧
    ("0" : String) ≠ "1" ∧
    MAX_CONCURRENT_JOBS = 1 := by
  refine ⟨Reach.of_run Reach.init
    ((by rfl) : run initSys c3acts = some ((run initSys c3acts).getD initSys)),
    by rfl, by rfl, by decide, rfl⟩

/-- Claim C3 amended: the MAX_CONCURRENT_JOBS bound holds for the engine
invocations dispatched through the queue — in every reachable state at
most MAX_CONCURRENT_JOBS subprocesses are in flight and the active-job
counter tracks them exactly; YouTube jobs in the acquisition phase are
additionally shown as processing outside this bound. -/
theorem engineConcurrencyBound (s : Sys) (h : Reach s) :
    s.running.length ≤ MAX_CONCURRENT_JOBS ∧ s.activeJobs = s.running.length := by
  obtain ⟨h1, h2⟩ := invC_reach h
  exact ⟨h1 ▸ h2, h1⟩

def w3acts : List Act :=
  [Act.submitUpload "a.mp3" 5 none none, Act.dispatch c3fs]

/-- Concrete instance of the amended claim C3 after one dispatch. -/
theorem engineConcurrencyBound_witness :
    ((run initSys w3acts).getD initSys).running.length ≤ MAX_CONCURRENT_JOBS ∧
    ((run initSys w3acts).getD initSys).activeJobs
      = ((run initSys w3acts).getD initSys).running.length :=
  engineConcurrencyBound _ (Reach.of_run Reach.init
    ((by rfl) : run initSys w3acts = some ((run initSys w3acts).getD initSys)))

/-! ## Claim C5 -/

def c5fs : FS := fun p =>
  if p = UPLOAD_DIR ++ "/0-a.mp3" then some "x"
  else if p = UPLOAD_DIR ++ "/0-a.txt" then some "hello" else none

def c5parse : JsonSegParse := fun _ => none

def c5pre : List Act :=
  [Act.submitUpload "a.mp3" 5 none none, Act.dispatch c5fs, Act.close 0 (some 0) c5fs c5parse]

def c5full : List Act := c5pre ++ [Act.submitUpload "b.mp3" 6 none none]

/-- Claim C5 counterexample: job "0" reaches the terminal completed state,
and a single subsequent operation — a same-millisecond second submission,
which reuses the id — moves its registry entry back to started. -/
theorem terminalStabilityCounterexample :
    Reach ((run initSys c5full).getD initSys) ∧
    (((run initSys c5pre).getD initSys).reg "0").map JobRec.status = some Status.completed ∧
    step ((run initSys c5pre).getD initSys) (Act.submitUpload "b.mp3" 6 none none)
      = some ((run initSys c5full).getD initSys) ∧
    (((run initSys c5full).getD initSys).reg "0").map JobRec.status = some Status.started := by
  refine ⟨Reach.of_run Reach.init
    ((by rfl) : run initSys c5full = some ((run initSys c5full).getD initSys)),
    by rfl, by rfl, by rfl⟩

/-- Claim C5 amended: along collision-free traces (no two submissions in
the same clock millisecond), every step moves each registry entry only
forward along started, processing, terminal — a terminal entry is never
changed again, and the status rank never decreases.  (The registry itself
never holds a distinct queued status: a queued job keeps its started
record, and a job may complete without a processing write.) -/
theorem lifecycleMonotone (s s' : Sys) (a : Act)
    (hR : ReachF s) (hf : freshAct s a = true) (hs : step s a = some s') :
    (∀ id r, s.reg id = some r → terminalStatus r.status → s'.reg id = some r) ∧
    (∀ id r r', s.reg id = some r → s'.reg id = some r' →
      statusRank r.status ≤ statusRank r'.status) :=
  step_monotone hR hf hs

def w5sys : Sys := (runF initSys c5pre).getD initSys

def w5rec : JobRec := (w5sys.reg "0").getD { status := Status.started }

/-- Concrete instance of the amended claim C5: after job "0" completed, a
clock tick leaves its terminal registry entry untouched. -/
theorem lifecycleMonotone_witness :
    ((step w5sys Act.tick).getD initSys).reg "0" = some w5rec :=
  (lifecycleMonotone w5sys _ Act.tick
      (ReachF.of_runF ReachF.init
        ((by rfl) : runF initSys c5pre = some ((runF initSys c5pre).getD initSys)))
      (by rfl) (by rfl)).1
    "0" w5rec (by rfl) (Or.inl (by rfl))

/-! ## Claim C6 -/

/-- Claim C6: the pending queue obeys a strict FIFO discipline — every
step leaves it unchanged, appends one record at the tail, or removes
exactly the head, and in the removal case the head is the job that enters
processing (or is failed for a missing input); so a job never overtakes an
earlier-queued one. -/
theorem fifoQueueDiscipline (s s' : Sys) (a : Act) (hs : step s a = some s') :
    s'.queue = s.queue ∨
    (∃ item, s'.queue = s.queue ++ [item]) ∨
    (∃ q rest, s.queue = q :: rest ∧ s'.queue = rest ∧
      ((∃ rj, s'.running = s.running ++ [rj] ∧ rj.jobId = q.jobId) ∨
       s'.reg q.jobId = some (inputNotFoundRec q.filePath))) := by
  cases a with
  | tick =>
    simp only [step, Option.some.injEq] at hs
    subst hs
    exact Or.inl rfl
  | submitUpload origName size model? language? =>
    simp only [step, uploadHandler, Option.some.injEq] at hs
    subst hs
    exact Or.inr (Or.inl ⟨_, rfl⟩)
  | dispatch fs =>
    simp only [step, dispatchStep] at hs
    split at hs
    · exact absurd hs (by simp)
    · split at hs
      · exact absurd hs (by simp)
      · rename_i q rest hq
        split at hs
        · exact absurd hs (by simp)
        · split at hs
          · simp only [Option.some.injEq] at hs
            subst hs
            exact Or.inr (Or.inr ⟨q, rest, hq, rfl, Or.inr (by simp [setReg])⟩)
          · simp only [Option.some.injEq] at hs
            subst hs
            exact Or.inr (Or.inr ⟨q, rest, hq, rfl, Or.inl ⟨_, rfl, rfl⟩⟩)
  | stdout k chunk =>
    simp only [step, stdoutStep] at hs
    split at hs
    · exact absurd hs (by simp)
    · simp only [Option.some.injEq] at hs
      subst hs
      exact Or.inl rfl
  | stderr k chunk =>
    simp only [step, stderrStep] at hs
    split at hs
    · exact absurd hs (by simp)
    · simp only [Option.some.injEq] at hs
      subst hs
      exact Or.inl rfl
  | close k code fs parse =>
    simp only [step, closeStep] at hs
    split at hs
    · exact absurd hs (by simp)
    · simp only [Option.some.injEq] at hs
      subst hs
      exact Or.inl rfl
  | spawnErr k message =>
    simp only [step, spawnErrStep] at hs
    split at hs
    · exact absurd hs (by simp)
    · simp only [Option.some.injEq] at hs
      subst hs
      exact Or.inl rfl
  | ytSubmit videoId vd model? language? =>
    simp only [step, transcribeYoutubeHandler] at hs
    cases vd with
    | none =>
      simp only [Option.some.injEq] at hs
      subst hs
      exact Or.inl rfl
    | some d =>
      simp only at hs
      split at hs
      · simp only [Option.some.injEq] at hs
        subst hs
        exact Or.inl rfl
      · simp only [Option.some.injEq] at hs
        subst hs
        exact Or.inl rfl
  | ytProgress k pct converting =>
    simp only [step, ytProgressStep] at hs
    split at hs
    · exact absurd hs (by simp)
    · simp only [Option.some.injEq] at hs
      subst hs
      exact Or.inl rfl
  | ytDone k =>
    simp only [step, ytDoneStep] at hs
    split at hs
    · exact absurd hs (by simp)
    · simp only [Option.some.injEq] at hs
      subst hs
      exact Or.inr (Or.inl ⟨_, rfl⟩)
  | ytFail k message =>
    simp only [step, ytFailStep] at hs
    split at hs
    · exact absurd hs (by simp)
    · simp only [Option.some.injEq] at hs
      subst hs
      exact Or.inl rfl

/-- Concrete instance of claim C6 at a submission step. -/
theorem fifoQueueDiscipline_witness :
    ((step initSys (Act.submitUpload "a.mp3" 5 none none)).getD initSys).queue = initSys.queue ∨
    (∃ item, ((step initSys (Act.submitUpload "a.mp3" 5 none none)).getD initSys).queue
      = initSys.queue ++ [item]) ∨
    (∃ q rest, initSys.queue = q :: rest ∧
      ((step initSys (Act.submitUpload "a.mp3" 5 none none)).getD initSys).queue = rest ∧
      ((∃ rj, ((step initSys (Act.submitUpload "a.mp3" 5 none none)).getD initSys).running
          = initSys.running ++ [rj] ∧ rj.jobId = q.jobId) ∨
       ((step initSys (Act.submitUpload "a.mp3" 5 none none)).getD initSys).reg q.jobId
          = some (inputNotFoundRec q.filePath))) :=
  fifoQueueDiscipline initSys _ (Act.submitUpload "a.mp3" 5 none none) (by rfl)

/-! ## Claim C7 -/

/-- Claim C7: a remote-reference submission whose reported duration
exceeds 1800 seconds is rejected synchronously with the too-long response
before acquisition starts; the state — in particular the registry and the
pending queue — is completely unchanged, so no job is created and nothing
is enqueued. -/
theorem durationCeilingReject (s : Sys) (videoId : String) (d : VideoDetails)
    (model? language? : Option String) (h : 1800 < d.duration) :
    transcribeYoutubeHandler s videoId (some d) model? language?
      = (s, YtResp.tooLong d.duration) ∧
    (transcribeYoutubeHandler s videoId (some d) model? language?).1.reg = s.reg ∧
    (transcribeYoutubeHandler s videoId (some d) model? language?).1.queue = s.queue ∧
    (transcribeYoutubeHandler s videoId (some d) model? language?).1.downloads = s.downloads := by
  have h1 : transcribeYoutubeHandler s videoId (some d) model? language?
      = (s, YtResp.tooLong d.duration) := by
    simp [transcribeYoutubeHandler, h]
  exact ⟨h1, by rw [h1], by rw [h1], by rw [h1]⟩

/-- Concrete instance of claim C7 at the spec scenario: reported duration
3600 seconds against the 1800 second ceiling. -/
theorem durationCeilingReject_witness :
    transcribeYoutubeHandler initSys "dQw4w9WgXcQ" (some ⟨"Long video", 3600, "Author", "thumb"⟩)
      none none = (initSys, YtResp.tooLong 3600) ∧
    (transcribeYoutubeHandler initSys "dQw4w9WgXcQ" (some ⟨"Long video", 3600, "Author", "thumb"⟩)
      none none).1.reg = initSys.reg ∧
    (transcribeYoutubeHandler initSys "dQw4w9WgXcQ" (some ⟨"Long video", 3600, "Author", "thumb"⟩)
      none none).1.queue = initSys.queue ∧
    (transcribeYoutubeHandler initSys "dQw4w9WgXcQ" (some ⟨"Long video", 3600, "Author", "thumb"⟩)
      none none).1.downloads = initSys.downloads :=
  durationCeilingReject initSys "dQw4w9WgXcQ" ⟨"Long video", 3600, "Author", "thumb"⟩
    none none (by decide)

/-! ## Claim C9 -/

/-- Claim C9: when the Adapter fails during a dispatch — the subprocess
closes with no transcript artifact, or the spawn itself errors — the
rejection is caught by the catch block of processQueue: the registry entry
of the job becomes the Failed record of the catch block, the dispatch
cycle ends (isProcessing is false), and if the queue is non-empty the
dispatch of the next queued item is enabled, whatever the filesystem
looks like. -/
theorem dispatchErrorIsolation (s s' : Sys) (k : Nat) (rj : RunJob) (a : Act)
    (hR : Reach s) (hrj : s.running[k]? = some rj)
    (hcase :
      (∃ code fs parse, a = Act.close k code fs parse ∧ fs (txtPathOf rj.inputPath) = none) ∨
      (∃ message, a = Act.spawnErr k message))
    (hs : step s a = some s') :
    (∃ d, s'.reg rj.jobId = some (queueCatchRec d)) ∧
    s'.isProcessing = false ∧
    (s'.queue ≠ [] → ∀ fs2, (step s' (Act.dispatch fs2)).isSome = true) := by
  obtain ⟨h1, h2⟩ := invC_reach hR
  have hk : k < s.running.length := (List.getElem?_eq_some_iff.mp hrj).1
  have hM : MAX_CONCURRENT_JOBS = 1 := rfl
  rcases hcase with ⟨code, fs, parse, ha, hfs⟩ | ⟨message, ha⟩
  · subst ha
    simp only [step, closeStep, hrj, Option.some.injEq] at hs
    subst hs
    have hch := closeHandler_noartifact fs parse rj.inputPath rj.validModel
      rj.language rj.errorOutput s.now code hfs
    have hok : (closeHandler fs parse rj.inputPath rj.validModel rj.language
        rj.errorOutput s.now code).ok = false := by rw [hch]
    refine ⟨⟨"Transcription file not found", ?_⟩, rfl, ?_⟩
    · simp [hok, setReg]
    · intro hne fs2
      have hqne : s.queue ≠ [] := hne
      cases hq : s.queue with
      | nil => exact absurd hq hqne
      | cons q rest =>
        show (dispatchStep _ fs2).isSome = true
        simp only [dispatchStep]
        rw [if_neg (by simp)]
        rw [if_neg (by omega)]
        split <;> rfl
  · subst ha
    simp only [step, spawnErrStep, hrj, Option.some.injEq] at hs
    subst hs
    refine ⟨⟨message, ?_⟩, rfl, ?_⟩
    · simp [setReg]
    · intro hne fs2
      cases hq : s.queue with
      | nil => exact absurd hq hne
      | cons q rest =>
        show (dispatchStep _ fs2).isSome = true
        simp only [dispatchStep]
        rw [if_neg (by simp)]
        rw [if_neg (by omega)]
        split <;> rfl

def w9fs : FS := fun p =>
  if p = UPLOAD_DIR ++ "/0-a.mp3" then some "x"
  else if p = UPLOAD_DIR ++ "/1-b.mp3" then some "y" else none

def w9parse : JsonSegParse := fun _ => none

def w9acts : List Act :=
  [ Act.submitUpload "a.mp3" 5 none none, Act.tick,
    Act.submitUpload "b.mp3" 6 none none, Act.dispatch w9fs ]

def w9sys : Sys := (run initSys w9acts).getD initSys

def w9sys' : Sys := (step w9sys (Act.close 0 none w9fs w9parse)).getD initSys

/-- Concrete instance of claim C9: job "0" fails with no artifact while
job "1" is still queued; the failure is recorded and the next dispatch is
enabled. -/
theorem dispatchErrorIsolation_witness :
    (∃ d, w9sys'.reg "0" = some (queueCatchRec d)) ∧
    w9sys'.isProcessing = false ∧
    (w9sys'.queue ≠ [] → ∀ fs2, (step w9sys' (Act.dispatch fs2)).isSome = true) :=
  dispatchErrorIsolation w9sys w9sys' 0
    ⟨"0", UPLOAD_DIR ++ "/0-a.mp3", "medium", "en", "", ""⟩
    (Act.close 0 none w9fs w9parse)
    (Reach.of_run Reach.init
      ((by rfl) : run initSys w9acts = some ((run initSys w9acts).getD initSys)))
    (by rfl)
    (Or.inl ⟨none, w9fs, w9parse, rfl, by rfl⟩)
    (by rfl)

end WhisperApp
